import Mathlib

/-!
Verification of the URL/Article Extraction Engine of the
googlealerts-analysis repository, as a shallow embedding in Lean 4.

The embedding covers:
  * `url_utils.py`: `EXCLUDE_DOMAINS`, `extract_actual_url`, `is_excluded_domain`,
    together with the parts of the Python standard library they rely on
    (`urllib.parse.unquote`, `urllib.parse.urlparse` query extraction and its
    ValueError conditions, `urllib.parse.parse_qs`, `str.find`, `str.lower`,
    substring membership);
  * `gmail_fetcher.py`: the compiled regular expressions `URL_PATTERN`,
    `LINK_PATTERN`, `TITLE_PATTERN`, `HTML_TAG_PATTERN` (as executable
    matchers following Python `re` leftmost / greedy / lazy semantics for
    these concrete patterns) and `_extract_alert_info`;
  * `list_articles.py`: the `Article` record and the per-result aggregation
    loop of `parse_report_json` (the file-reading shell is not modelled, the
    loop over the already-decoded JSON data is).

Strings are modelled as `List Char`; Python `str` operations are embedded as
executable functions on `List Char`.  `%XX` percent-escapes are decoded to
bytes and re-decoded as UTF-8 with U+FFFD replacement, following
`urllib.parse.unquote` with `errors = "replace"`.
-/

namespace GA

/-! ## Python string primitives -/

/-- Python whitespace for `str.strip` and the regex class `\s`
(ASCII part: space, tab, newline, carriage return, vertical tab, form feed;
the rare non-ASCII Unicode spaces are not modelled, no input of interest
contains them). -/
def pySpace (c : Char) : Bool :=
  c = ' ' || c = '\t' || c = '\n' || c = '\x0d' || c = '\x0b' || c = '\x0c'

/-- Does `p` occur at the head of `s`?  (`str.startswith`). -/
def startsWithL (p : List Char) : List Char → Bool
  | s => p.isPrefixOf s

/-- First index at which `pat` occurs in the list (`str.find`, successful
case), `none` when there is no occurrence (`str.find` returning `-1`). -/
def findSub (pat : List Char) : List Char → Option Nat
  | [] => if startsWithL pat [] then some 0 else none
  | c :: t =>
    if startsWithL pat (c :: t) then some 0
    else (findSub pat t).map (· + 1)

/-- Substring membership (Python `pat in s`). -/
def containsSub (s pat : List Char) : Bool :=
  (findSub pat s).isSome

/-- Python `str.lower` (ASCII case mapping; the inputs of interest are
ASCII). -/
def lowerL (s : List Char) : List Char :=
  s.map Char.toLower

/-- Python `str.strip()` with no argument: drop leading and trailing
whitespace. -/
def pyStrip (s : List Char) : List Char :=
  ((s.dropWhile pySpace).reverse.dropWhile pySpace).reverse

/-- Python `str.replace(pat, repl)`: replace every non-overlapping
occurrence, scanning left to right.  The fuel argument starts at the length
of the string; every step consumes at least one character when `pat` is
nonempty (the only way the code calls it). -/
def replaceAux (pat repl : List Char) : Nat → List Char → List Char
  | 0, s => s
  | _ + 1, [] => []
  | fuel + 1, c :: t =>
    if startsWithL pat (c :: t) && !pat.isEmpty then
      repl ++ replaceAux pat repl fuel ((c :: t).drop pat.length)
    else
      c :: replaceAux pat repl fuel t

def pyReplace (s pat repl : List Char) : List Char :=
  replaceAux pat repl s.length s

/-- Split on a single separator character (`str.split(sep)` for a one
character separator, as used by `parse_qsl` with `&` and by nothing else). -/
def splitOnChar (sep : Char) : List Char → List (List Char)
  | [] => [[]]
  | c :: t =>
    match splitOnChar sep t with
    | [] => [[]]
    | h :: r => if c = sep then [] :: h :: r else (c :: h) :: r

/-- Python `s.split(sep, 1)` for a one character separator: split at the
first occurrence only.  Returns the part before and, when the separator
occurs, the part after. -/
def splitFirst (sep : Char) : List Char → List Char × Option (List Char)
  | [] => ([], none)
  | c :: t =>
    if c = sep then ([], some t)
    else
      match splitFirst sep t with
      | (pre, post) => (c :: pre, post)

/-! ## Percent decoding (`urllib.parse.unquote`, `errors="replace"`) -/

/-- Value of a hexadecimal digit (`_hextobyte` accepts both cases). -/
def hexVal (c : Char) : Option Nat :=
  let n := c.toNat
  if 48 ≤ n && n ≤ 57 then some (n - 48)
  else if 97 ≤ n && n ≤ 102 then some (n - 87)
  else if 65 ≤ n && n ≤ 70 then some (n - 55)
  else none

/-- An item of a percent-decoded string: a byte produced from an ASCII
character or a `%XX` escape, or a non-ASCII character passed through
unchanged (CPython feeds only the ASCII runs of the input to
`unquote_to_bytes`; non-ASCII characters never enter the byte level). -/
def percentItems : List Char → List (Nat ⊕ Char)
  | [] => []
  | '%' :: h1 :: h2 :: rest =>
    match hexVal h1, hexVal h2 with
    | some a, some b => Sum.inl (a * 16 + b) :: percentItems rest
    | _, _ => Sum.inl '%'.toNat :: percentItems (h1 :: h2 :: rest)
  | c :: rest =>
    if c.toNat ≤ 0x7f then Sum.inl c.toNat :: percentItems rest
    else Sum.inr c :: percentItems rest

def replChar : Char := '�'

def isCont (b : Nat) : Bool := 0x80 ≤ b && b ≤ 0xbf

/-- UTF-8 decoding of the byte items with U+FFFD replacement on error
(maximal valid subpart consumed per error, as in CPython
`bytes.decode("utf-8", "replace")`); pass-through characters interrupt a
byte sequence exactly as the end of an ASCII run does in CPython. -/
def utf8ItemsDecode : Nat → List (Nat ⊕ Char) → List Char
  | 0, _ => []
  | _ + 1, [] => []
  | fuel + 1, Sum.inr c :: rest => c :: utf8ItemsDecode fuel rest
  | fuel + 1, Sum.inl b1 :: rest =>
    if b1 < 0x80 then Char.ofNat b1 :: utf8ItemsDecode fuel rest
    else if 0xc2 ≤ b1 && b1 ≤ 0xdf then
      match rest with
      | Sum.inl b2 :: rest2 =>
        if isCont b2 then
          Char.ofNat ((b1 - 0xc0) * 64 + (b2 - 0x80)) :: utf8ItemsDecode fuel rest2
        else replChar :: utf8ItemsDecode fuel rest
      | _ => replChar :: utf8ItemsDecode fuel rest
    else if 0xe0 ≤ b1 && b1 ≤ 0xef then
      match rest with
      | Sum.inl b2 :: rest2 =>
        if (b1 = 0xe0 && 0xa0 ≤ b2 && b2 ≤ 0xbf)
            || (b1 = 0xed && 0x80 ≤ b2 && b2 ≤ 0x9f)
            || (b1 ≠ 0xe0 && b1 ≠ 0xed && isCont b2) then
          match rest2 with
          | Sum.inl b3 :: rest3 =>
            if isCont b3 then
              Char.ofNat ((b1 - 0xe0) * 4096 + (b2 - 0x80) * 64 + (b3 - 0x80))
                :: utf8ItemsDecode fuel rest3
            else replChar :: utf8ItemsDecode fuel rest2
          | _ => replChar :: utf8ItemsDecode fuel rest2
        else replChar :: utf8ItemsDecode fuel rest
      | _ => replChar :: utf8ItemsDecode fuel rest
    else if 0xf0 ≤ b1 && b1 ≤ 0xf4 then
      match rest with
      | Sum.inl b2 :: rest2 =>
        if (b1 = 0xf0 && 0x90 ≤ b2 && b2 ≤ 0xbf)
            || (b1 = 0xf4 && 0x80 ≤ b2 && b2 ≤ 0x8f)
            || (b1 ≠ 0xf0 && b1 ≠ 0xf4 && isCont b2) then
          match rest2 with
          | Sum.inl b3 :: rest3 =>
            if isCont b3 then
              match rest3 with
              | Sum.inl b4 :: rest4 =>
                if isCont b4 then
                  Char.ofNat ((b1 - 0xf0) * 262144 + (b2 - 0x80) * 4096
                      + (b3 - 0x80) * 64 + (b4 - 0x80))
                    :: utf8ItemsDecode fuel rest4
                else replChar :: utf8ItemsDecode fuel rest3
              | _ => replChar :: utf8ItemsDecode fuel rest3
            else replChar :: utf8ItemsDecode fuel rest2
          | _ => replChar :: utf8ItemsDecode fuel rest2
        else replChar :: utf8ItemsDecode fuel rest
      | _ => replChar :: utf8ItemsDecode fuel rest
    else replChar :: utf8ItemsDecode fuel rest

/-- `urllib.parse.unquote(s, encoding="utf-8", errors="replace")`.
The fuel argument of the decoder is the item count: every decoding step
consumes at least one item, so the fuel never runs out. -/
def unquoteL (s : List Char) : List Char :=
  utf8ItemsDecode (percentItems s).length (percentItems s)

/-! ## `urllib.parse.urlparse` (query extraction) and `parse_qs` -/

def schemeChar (c : Char) : Bool :=
  c.isAlpha || ('0' ≤ c && c ≤ '9') || c = '+' || c = '-' || c = '.'

/-- The query component of `urlparse(url)`, or an error where CPython
`urlsplit` raises `ValueError` ("Invalid IPv6 URL": a `[` in the network
location without a `]`, or a `]` without a `[`).  Follows CPython
`urlsplit`: strip the unsafe bytes tab, CR and LF everywhere; strip a
leading `scheme:`; when the remainder begins with `//`, the network
location runs to the first of `/`, `?`, `#`; the fragment is split off at
the first `#` before the query is split off at the first `?`. -/
def urlparseQuery (url : List Char) : Except Unit (List Char) :=
  let u0 := url.filter (fun c => !(c = '\t' || c = '\x0d' || c = '\n'))
  let u1 :=
    match findSub [':'] u0 with
    | some i =>
      if 0 < i && (u0.take i).all schemeChar
          && (match u0 with | c :: _ => c.isAlpha | [] => false) then
        u0.drop (i + 1)
      else u0
    | none => u0
  let netloc :=
    if startsWithL ['/', '/'] u1 then
      (u1.drop 2).takeWhile (fun c => !(c = '/' || c = '?' || c = '#'))
    else []
  let u2 :=
    if startsWithL ['/', '/'] u1 then (u1.drop 2).drop netloc.length else u1
  if (netloc.contains '[' && !netloc.contains ']')
      || (netloc.contains ']' && !netloc.contains '[') then
    Except.error ()
  else
    let u3 := (splitFirst '#' u2).1
    match (splitFirst '?' u3).2 with
    | some q => Except.ok q
    | none => Except.ok []

/-- `urllib.parse.parse_qsl` with the default arguments
(`keep_blank_values=False`, separator `&`): split the query on `&`, skip
empty fields, split each field once on `=`, skip fields without `=` and
fields with an empty value, replace `+` by space and percent-decode both
name and value. -/
def parseQsl (qs : List Char) : List (List Char × List Char) :=
  (splitOnChar '&' qs).filterMap (fun field =>
    if field.isEmpty then none
    else
      match splitFirst '=' field with
      | (_, none) => none
      | (name, some value) =>
        if value.isEmpty then none
        else some (unquoteL (pyReplace name ['+'] [' ']),
                   unquoteL (pyReplace value ['+'] [' '])))

/-- `parse_qs(qs)['url'][0]` when the key `url` is present: the first
value whose decoded name is `url` (`parse_qs` groups `parse_qsl` pairs in
order, so the first pair with that name holds the first value). -/
def qsUrlValue (pairs : List (List Char × List Char)) : Option (List Char) :=
  (pairs.find? (fun p => p.1 = ['u', 'r', 'l'])).map (·.2)

/-! ## `url_utils.py` -/

/-- `EXCLUDE_DOMAINS` of `url_utils.py`. -/
def EXCLUDE_DOMAINS : List (List Char) :=
  [['g','o','o','g','l','e'], ['f','a','c','e','b','o','o','k'],
   ['t','w','i','t','t','e','r'], ['l','i','n','k','e','d','i','n'],
   ['y','o','u','t','u','b','e']]

/-- `is_excluded_domain(url, exclude_domains)`. -/
def isExcludedDomainWith (url : List Char) (ds : List (List Char)) : Bool :=
  ds.any (fun d => containsSub (lowerL url) d)

/-- `is_excluded_domain(url)` with the default exclusion list. -/
def is_excluded_domain (url : String) : Bool :=
  isExcludedDomainWith url.data EXCLUDE_DOMAINS

/-- The guard of `extract_actual_url`:
`'google.com/url' in url or 'scholar.google' in url`. -/
def isRedirectUrl (url : List Char) : Bool :=
  containsSub url ("google.com/url".data) || containsSub url ("scholar.google".data)

/-- Truthiness of `re.search(r'[?&]url=([^&]+(?:&[^=&]+)*)', url)`: the
match exists exactly when some `?` or `&` is followed by `url=` and then
at least one character other than `&` (the trailing `(?:&[^=&]+)*` group
can always match zero repetitions, so it does not constrain existence). -/
def urlRegexTail : List Char → Bool
  | 'u' :: 'r' :: 'l' :: '=' :: c :: _ => c ≠ '&'
  | _ => false

def hasUrlRegex : List Char → Bool
  | [] => false
  | c :: t => ((c = '?' || c = '&') && urlRegexTail t) || hasUrlRegex t

/-- The Google tracking parameters scanned for in the regex branch of
`extract_actual_url`. -/
def googleParams : List (List Char) :=
  ["&ct=".data, "&sa=".data, "&rct=".data, "&cd=".data, "&usg=".data,
   "&ved=".data, "&q=".data]

/-- One iteration of the `for param in google_params` loop of
`extract_actual_url`: `pos = url_part.find(param)`;
`if pos != -1 and pos < end_pos: end_pos = pos`. -/
def endPosStep (url_part : List Char) (end_pos : Nat) (param : List Char) : Nat :=
  match findSub param url_part with
  | some pos => if pos < end_pos then pos else end_pos
  | none => end_pos

/-- The regex branch of `extract_actual_url`:
`url_part = url[url.find('url=') + 4:]`, truncate at the earliest Google
tracking parameter, percent-decode.  Only entered when the regex matched,
in which case `url=` occurs, so the `none` branch is unreachable. -/
def regexExtract (url : List Char) : List Char :=
  match findSub (['u', 'r', 'l', '=']) url with
  | some i =>
    let url_part := url.drop (i + 4)
    let end_pos := googleParams.foldl (endPosStep url_part) url_part.length
    unquoteL (url_part.take end_pos)
  | none => url

/-- The body of the `try` block of `extract_actual_url`: `some r` when a
`return` fired inside the `try`, `none` when control fell through to the
final `return url`, `error` when an exception was raised (caught by the
`except` clause, which also returns the input). -/
def extractBodyE (url : List Char) : Except Unit (Option (List Char)) :=
  if hasUrlRegex url then Except.ok (some (regexExtract url))
  else
    match urlparseQuery url with
    | Except.error e => Except.error e
    | Except.ok q =>
      match qsUrlValue (parseQsl q) with
      | some v => Except.ok (some (unquoteL v))
      | none => Except.ok none

/-- `extract_actual_url(url)` of `url_utils.py`. -/
def extractActualUrlL (url : List Char) : List Char :=
  if !isRedirectUrl url then url
  else
    match extractBodyE url with
    | Except.ok (some v) => v
    | Except.ok none => url
    | Except.error _ => url

def extract_actual_url (url : String) : String :=
  String.mk (extractActualUrlL url.data)

/-! ## `gmail_fetcher.py`: the compiled patterns

`URL_PATTERN  = https?://[^\s<>"\')]+[^\s<>"\'.,;:!?)\]]`
`LINK_PATTERN = <a[^>]+href=["\']([^"\']+)["\'][^>]*>(.*?)</a>` (DOTALL)
`TITLE_PATTERN = <b>([^<]+)</b>`
`HTML_TAG_PATTERN = <[^>]+>`

implemented as executable matchers with Python `re` leftmost, greedy and
lazy semantics for these concrete patterns. -/

/-- The character class `[^\s<>"\')]` of `URL_PATTERN`. -/
def isA (c : Char) : Bool :=
  !(pySpace c || c = '<' || c = '>' || c = '"' || c = '\'' || c = ')')

/-- The character class `[^\s<>"\'.,;:!?)\]]` of `URL_PATTERN`. -/
def isB (c : Char) : Bool :=
  isA c && !(c = '.' || c = ',' || c = ';' || c = ':' || c = '!' || c = '?'
             || c = ']')

/-- Greedy backtracking of `[^\s<>"\')]+` followed by one
`[^\s<>"\'.,;:!?)\]]` character: the `+` consumes `j ≥ 1` characters of
the maximal `isA` run and the character at index `j` must satisfy `isB`;
the engine keeps the largest such `j`.  (A character outside the run
fails both classes, so the final character always lies inside the run.) -/
def findLastGoodIdx (run : List Char) : Option Nat :=
  (List.range run.length).reverse.find?
    (fun j => decide (0 < j) && isB (run.getD j ' '))

/-- Length of the `URL_PATTERN` match starting at the head of `s`, if
any.  `https?://` is deterministic: `s?` is taken exactly when the
character after `http` is `s` (if taking it fails, not taking it fails on
`:` as well). -/
def matchUrlLen (s : List Char) : Option Nat :=
  if startsWithL "https://".data s then
    match findLastGoodIdx ((s.drop 8).takeWhile isA) with
    | some j => some (8 + j + 1)
    | none => none
  else if startsWithL "http://".data s then
    match findLastGoodIdx ((s.drop 7).takeWhile isA) with
    | some j => some (7 + j + 1)
    | none => none
  else none

/-- `URL_PATTERN.findall(body)`: scan left to right, emit each
non-overlapping leftmost match and continue after it, else advance one
character.  Fuel is the length of the scanned list; every step consumes
at least one character, so it never runs out. -/
def urlFindAux : Nat → List Char → List (List Char)
  | 0, _ => []
  | _ + 1, [] => []
  | fuel + 1, c :: t =>
    match matchUrlLen (c :: t) with
    | some n => (c :: t).take n :: urlFindAux fuel ((c :: t).drop n)
    | none => urlFindAux fuel t

def urlFindall (body : List Char) : List (List Char) :=
  urlFindAux body.length body

/-- One attempt of `LINK_PATTERN` with the `[^>]+` group consuming
exactly `p` characters of `tail` (the part after `<a`): requires those
`p ≥ 1` characters to avoid `>`, then `href=`, a quote, a nonempty run
avoiding both quote characters (group 1), a quote (either kind: the
pattern accepts a mismatched closing quote), `[^>]*` (deterministic: the
maximal run, since `>` is excluded from the class), `>`, and the lazy
`(.*?)</a>`: group 2 ends at the first `</a>` (DOTALL: newlines match).
Returns characters consumed after `<a`, group 1 and group 2. -/
def checkHrefAt (tail : List Char) (p : Nat) : Option (Nat × List Char × List Char) :=
  if (tail.take p).all (· ≠ '>') && decide (1 ≤ p)
      && startsWithL "href=".data (tail.drop p) then
    match tail.drop (p + 5) with
    | q1 :: rest2 =>
      if q1 = '"' || q1 = '\'' then
        let urlRun := rest2.takeWhile (fun c => !(c = '"' || c = '\''))
        if urlRun.isEmpty then none
        else
          match rest2.drop urlRun.length with
          | _ :: rest3 =>
            let tagRun := rest3.takeWhile (· ≠ '>')
            match rest3.drop tagRun.length with
            | '>' :: rest4 =>
              match findSub "</a>".data rest4 with
              | some k =>
                some (p + 5 + 1 + urlRun.length + 1 + tagRun.length + 1 + k + 4,
                      urlRun, rest4.take k)
              | none => none
            | _ => none
          | [] => none
      else none
    | [] => none
  else none

/-- Greedy backtracking of `[^>]+`: try the largest consumption first,
then smaller, down to one character. -/
def linkTryP (tail : List Char) : Nat → Option (Nat × List Char × List Char)
  | 0 => none
  | p + 1 =>
    match checkHrefAt tail (p + 1) with
    | some r => some r
    | none => linkTryP tail p

/-- Length of the `LINK_PATTERN` match starting at the head of `s`, with
its two groups, if any.  The `[^>]+` group can consume at most the
maximal run of non-`>` characters after `<a`. -/
def matchLinkLen (s : List Char) : Option (Nat × List Char × List Char) :=
  match s with
  | '<' :: 'a' :: tail =>
    match linkTryP tail (tail.takeWhile (· ≠ '>')).length with
    | some (n, u, c) => some (2 + n, u, c)
    | none => none
  | _ => none

/-- `LINK_PATTERN.findall(body)`: list of `(group 1, group 2)` pairs of
the non-overlapping leftmost matches. -/
def linkFindAux : Nat → List Char → List (List Char × List Char)
  | 0, _ => []
  | _ + 1, [] => []
  | fuel + 1, c :: t =>
    match matchLinkLen (c :: t) with
    | some (n, u, g) => (u, g) :: linkFindAux fuel ((c :: t).drop n)
    | none => linkFindAux fuel t

def linkFindall (body : List Char) : List (List Char × List Char) :=
  linkFindAux body.length body

/-- `TITLE_PATTERN` match attempt anchored at the head: `<b>`, a nonempty
run avoiding `<` (group 1, deterministic since the following literal
starts with `<`), then `</b>`. -/
def tryTitleAt : List Char → Option (List Char)
  | '<' :: 'b' :: '>' :: rest =>
    let run := rest.takeWhile (· ≠ '<')
    if run.isEmpty then none
    else if startsWithL "</b>".data (rest.drop run.length) then some run
    else none
  | _ => none

/-- `TITLE_PATTERN.search(content)`: group 1 of the leftmost match. -/
def titleSearchL : List Char → Option (List Char)
  | [] => none
  | c :: t =>
    match tryTitleAt (c :: t) with
    | some r => some r
    | none => titleSearchL t

/-- `HTML_TAG_PATTERN.sub('', content)`: delete every `<[^>]+>` match,
scanning left to right (at `<`, the maximal non-`>` run must be nonempty
and followed by `>`, deterministically). -/
def htmlTagSubAux : Nat → List Char → List Char
  | 0, s => s
  | _ + 1, [] => []
  | fuel + 1, c :: t =>
    if c = '<' then
      let run := t.takeWhile (· ≠ '>')
      if run.isEmpty then c :: htmlTagSubAux fuel t
      else
        match t.drop run.length with
        | '>' :: rest => htmlTagSubAux fuel rest
        | _ => c :: htmlTagSubAux fuel t
    else c :: htmlTagSubAux fuel t

def htmlTagSubL (content : List Char) : List Char :=
  htmlTagSubAux content.length content

/-! ## `gmail_fetcher.py`: `_extract_alert_info` -/

/-- An article dictionary built by `_extract_alert_info`. -/
structure GArticle where
  title : String
  url : String
  snippet : String
deriving DecidableEq, Repr

/-- The anchor-tag extraction loop (`for url, content in matches`). -/
def anchorArticles (body : List Char) : List GArticle :=
  (linkFindall body).filterMap (fun m =>
    let actual_url := extractActualUrlL m.1
    if startsWithL "http".data actual_url
        && !isExcludedDomainWith actual_url EXCLUDE_DOMAINS then
      let clean_title :=
        match titleSearchL m.2 with
        | some t => pyStrip t
        | none => pyStrip (htmlTagSubL m.2)
      if !clean_title.isEmpty || !actual_url.isEmpty then
        some ⟨String.mk clean_title, String.mk actual_url, ""⟩
      else none
    else none)

/-- The bare-URL fallback loop (`for url in urls`). -/
def fallbackArticles (body : List Char) : List GArticle :=
  (urlFindall body).filterMap (fun u =>
    let actual_url := extractActualUrlL u
    if !isExcludedDomainWith actual_url EXCLUDE_DOMAINS then
      some ⟨"", String.mk actual_url, ""⟩
    else none)

/-- The subject handling of `_extract_alert_info`. -/
def alertQueryOf (subject : List Char) (alert_type : String) : List Char :=
  if alert_type = "scholar" then
    if containsSub subject "Scholar Alert: ".data then
      pyReplace subject "Scholar Alert: ".data []
    else subject
  else
    if containsSub subject "Google Alert - ".data then
      pyReplace subject "Google Alert - ".data []
    else subject

structure AlertInfo where
  alert_query : String
  articles : List GArticle
  full_body : String
deriving DecidableEq, Repr

/-- `_extract_alert_info(body, subject, alert_type)`: the anchor loop
fills `articles` only when the substring `<a href=` occurs in the body;
the bare-URL fallback loop runs whenever `articles` is still empty. -/
def extractAlertInfo (body subject : String) (alert_type : String) : AlertInfo :=
  let b := body.data
  let anchor := if containsSub b "<a href=".data then anchorArticles b else []
  ⟨String.mk (alertQueryOf subject.data alert_type),
   if anchor.isEmpty then fallbackArticles b else anchor,
   String.mk (b.take 500)⟩

/-! ## `list_articles.py`: `Article` and the loop of `parse_report_json`

The JSON data already decoded from the file is modelled by records of
optional fields, one per key the code reads; `dict.get(key, default)`
becomes `Option.getD`.  The file-opening shell of `parse_report_json`
(missing file, invalid JSON) is not modelled; the per-result loop is. -/

structure AnnData where
  title : Option String
  url : Option String
  summary : Option String
  is_relevant : Option Bool
  relevance_reasoning : Option String
deriving DecidableEq, Repr

structure RawArticleData where
  title : Option String
  url : Option String
  snippet : Option String
deriving DecidableEq, Repr

structure DecisionData where
  articles : Option (List AnnData)
  is_relevant : Option Bool
  reasoning : Option String
deriving DecidableEq, Repr

structure AlertData where
  alert_query : Option String
  date : Option String
  articles : Option (List RawArticleData)
deriving DecidableEq, Repr

structure ResultEntry where
  alert : Option AlertData
  decision : Option DecisionData
deriving DecidableEq, Repr

/-- The `Article` record of `list_articles.py`. -/
structure LArticle where
  title : String
  url : String
  summary : String
  date : String
  source : String
  alert_query : String
  is_relevant : Bool
  relevance_reasoning : String
deriving DecidableEq, Repr

/-- The body of the `for result in results` loop of `parse_report_json`,
appending to the accumulated list as the code appends to `articles`. -/
def appendResultArticles (acc : List LArticle) (r : ResultEntry)
    (source_type : String) : List LArticle :=
  let alert := r.alert.getD ⟨none, none, none⟩
  let decision := r.decision.getD ⟨none, none, none⟩
  let alert_query := alert.alert_query.getD "Unknown Query"
  let alert_date := alert.date.getD "Unknown Date"
  let analyzed_articles := decision.articles.getD []
  if !analyzed_articles.isEmpty then
    analyzed_articles.foldl (fun a ad =>
      a ++ [⟨ad.title.getD "No Title", ad.url.getD "", ad.summary.getD "",
             alert_date, source_type, alert_query, ad.is_relevant.getD false,
             ad.relevance_reasoning.getD ""⟩]) acc
  else
    (alert.articles.getD []).foldl (fun a ad =>
      a ++ [⟨ad.title.getD "No Title", ad.url.getD "", ad.snippet.getD "",
             alert_date, source_type, alert_query,
             decision.is_relevant.getD false,
             decision.reasoning.getD ""⟩]) acc

/-- The article-collection loop of `parse_report_json` over the decoded
`data.get('results', [])`. -/
def parseReportResults (results : List ResultEntry) (source_type : String) :
    List LArticle :=
  results.foldl (fun acc r => appendResultArticles acc r source_type) []

/-! ## Lemmas about the string primitives -/

theorem startsWithL_iff {p s : List Char} : startsWithL p s = true ↔ p <+: s := by
  simp [startsWithL, List.isPrefixOf_iff_prefix]

theorem startsWithL_ne_nil {p s : List Char} (hp : p ≠ [])
    (h : startsWithL p s = true) : s ≠ [] := by
  rcases startsWithL_iff.mp h with ⟨t, rfl⟩
  cases p with
  | nil => exact absurd rfl hp
  | cons c cs => simp

theorem findSub_bound {pat : List Char} :
    ∀ {l : List Char} {i : Nat}, findSub pat l = some i →
      i + pat.length ≤ l.length := by
  intro l
  induction l with
  | nil =>
    intro i h
    simp only [findSub, startsWithL] at h
    split at h
    · rename_i hp
      rw [List.isPrefixOf_iff_prefix] at hp
      have := hp.length_le
      cases h
      simpa using this
    · cases h
  | cons c t ih =>
    intro i h
    simp only [findSub] at h
    split at h
    · rename_i hp
      rw [startsWithL_iff] at hp
      have := hp.length_le
      cases h
      simpa using this
    · rcases Option.map_eq_some'.mp h with ⟨i', hi', rfl⟩
      have := ih hi'
      simp only [List.length_cons]
      omega

theorem findSub_nil_pat : ∀ l : List Char, findSub [] l = some 0 := by
  intro l
  cases l <;> simp [findSub, startsWithL, List.isPrefixOf]

theorem findSub_append_left {pat a : List Char} (b : List Char) :
    ∀ {i : Nat}, findSub pat a = some i → findSub pat (a ++ b) = some i := by
  induction a with
  | nil =>
    intro i h
    simp only [findSub, startsWithL] at h
    split at h
    · rename_i hp
      rw [List.isPrefixOf_iff_prefix, List.prefix_nil] at hp
      cases h
      subst hp
      simpa using findSub_nil_pat b
    · cases h
  | cons c t ih =>
    intro i h
    simp only [findSub] at h ⊢
    split at h
    · rename_i hp
      cases h
      rw [if_pos]
      rw [startsWithL_iff] at hp ⊢
      exact hp.trans (List.prefix_append _ _)
    · rename_i hp
      rcases Option.map_eq_some'.mp h with ⟨i', hi', rfl⟩
      have hbound := findSub_bound hi'
      rw [if_neg]
      · simp only [List.append_eq]
        rw [ih hi']
        rfl
      · intro hcon
        apply hp
        rw [startsWithL_iff]
        have hlen : pat.length ≤ (c :: t).length := by
          simp only [List.length_cons]
          omega
        have hpre : pat <+: List.take (c :: t).length ((c :: t) ++ b) :=
          List.prefix_take_iff.mpr ⟨startsWithL_iff.mp hcon, hlen⟩
        rwa [List.take_left] at hpre

theorem containsSub_append_left {a : List Char} (b : List Char) {pat : List Char}
    (h : containsSub a pat = true) : containsSub (a ++ b) pat = true := by
  simp only [containsSub, Option.isSome_iff_exists] at h ⊢
  rcases h with ⟨i, hi⟩
  exact ⟨i, findSub_append_left b hi⟩

/-- Shifting `str.find` across a left context that cannot contain the
head of the pattern. -/
theorem findSub_shift {pr : List Char} :
    ∀ {e : List Char} (t : List Char), (∀ c ∈ e, c ≠ '&') →
      findSub ('&' :: pr) (e ++ t) =
        (findSub ('&' :: pr) t).map (e.length + ·) := by
  intro e
  induction e with
  | nil =>
    intro t _
    simp only [List.nil_append, List.length_nil]
    cases h : findSub ('&' :: pr) t <;> simp
  | cons c e' ih =>
    intro t he
    have hc : c ≠ '&' := he c (by simp)
    have hnp : startsWithL ('&' :: pr) ((c :: e') ++ t) = false := by
      rw [Bool.eq_false_iff]
      intro hcon
      rw [startsWithL_iff, List.cons_append] at hcon
      rcases hcon with ⟨u, hu⟩
      exact hc (List.head_eq_of_cons_eq hu.symm)
    simp only [findSub, List.cons_append, List.append_eq] at hnp ⊢
    rw [hnp]
    simp only [Bool.false_eq_true, if_false]
    rw [← List.cons_append] at hnp
    have := ih t (fun d hd => he d (by simp [hd]))
    rw [this]
    cases h : findSub ('&' :: pr) t
    · simp
    · simp
      omega

theorem hasUrlRegex_append_right {b : List Char} (a : List Char)
    (h : hasUrlRegex b = true) : hasUrlRegex (a ++ b) = true := by
  induction a with
  | nil => simpa using h
  | cons c a' ih =>
    simp only [List.cons_append, hasUrlRegex, List.append_eq]
    rw [ih]
    simp

theorem findSub_of_startsWith {p t : List Char} (h : startsWithL p t = true) :
    findSub p t = some 0 := by
  cases t <;> simp [findSub, h]

/-! ## Lemmas about the tracking-parameter loop -/

theorem endPosFold_zero (part : List Char) (ps : List (List Char)) :
    ps.foldl (endPosStep part) 0 = 0 := by
  induction ps with
  | nil => rfl
  | cons q ps' ih =>
    have hstep : endPosStep part 0 q = 0 := by
      unfold endPosStep
      cases h : findSub q part <;> simp
    simpa [hstep] using ih

theorem endPosFold_hits_zero (part : List Char) {ps : List (List Char)}
    {p : List Char} (hmem : p ∈ ps) (hfind : findSub p part = some 0) :
    ∀ init, ps.foldl (endPosStep part) init = 0 := by
  induction ps with
  | nil => cases hmem
  | cons q ps' ih =>
    intro init
    rcases List.mem_cons.mp hmem with rfl | hmem'
    · have hstep : endPosStep part init p = 0 := by
        simp only [endPosStep, hfind]
        split <;> omega
      simpa [hstep] using endPosFold_zero part ps'
    · exact ih hmem' _

theorem endPosFold_shift {e t : List Char} (he : ∀ c ∈ e, c ≠ '&')
    {ps : List (List Char)} (hps : ∀ p ∈ ps, ∃ pr, p = '&' :: pr) :
    ∀ init, ps.foldl (endPosStep (e ++ t)) (e.length + init) =
      e.length + ps.foldl (endPosStep t) init := by
  induction ps with
  | nil => intro init; rfl
  | cons q ps' ih =>
    intro init
    rcases hps q (by simp) with ⟨pr, rfl⟩
    have hstep : endPosStep (e ++ t) (e.length + init) ('&' :: pr) =
        e.length + endPosStep t init ('&' :: pr) := by
      unfold endPosStep
      rw [findSub_shift t he]
      cases h : findSub ('&' :: pr) t
      · simp
      · rename_i pos
        simp only [Option.map_some']
        by_cases hlt : pos < init
        · rw [if_pos (by omega), if_pos hlt]
        · rw [if_neg (by omega), if_neg hlt]
    rw [List.foldl_cons, List.foldl_cons, hstep]
    exact ih (fun p hp => hps p (by simp [hp])) _

/-! ## Unfolding lemmas for `extract_actual_url` -/

theorem extract_not_redirect {u : List Char} (h : isRedirectUrl u = false) :
    extractActualUrlL u = u := by
  simp [extractActualUrlL, h]

theorem extract_of_regex {u : List Char} (h1 : isRedirectUrl u = true)
    (h2 : hasUrlRegex u = true) : extractActualUrlL u = regexExtract u := by
  simp [extractActualUrlL, extractBodyE, h1, h2]

theorem extract_of_error {u : List Char} {e : Unit}
    (h : extractBodyE u = Except.error e) : extractActualUrlL u = u := by
  unfold extractActualUrlL
  rw [h]
  split <;> rfl

theorem extract_no_strategies {u : List Char} (h2 : hasUrlRegex u = false)
    (h3 : ∀ q, urlparseQuery u = Except.ok q → qsUrlValue (parseQsl q) = none) :
    extractActualUrlL u = u := by
  cases hq : urlparseQuery u with
  | error e =>
    have hb : extractBodyE u = Except.error e := by
      unfold extractBodyE
      rw [h2]
      simp only [Bool.false_eq_true, if_false, hq]
    exact extract_of_error hb
  | ok q =>
    have hb : extractBodyE u = Except.ok none := by
      unfold extractBodyE
      rw [h2]
      simp only [Bool.false_eq_true, if_false, hq, h3 q hq]
    unfold extractActualUrlL
    rw [hb]
    split <;> rfl

/-- Symbolic evaluation of the regex branch on a scholarly redirect
wrapper followed by an encoded destination `e` (free of `&`) and a
sibling-parameter tail `t` that is empty or starts with a Google tracking
parameter. -/
theorem regexExtract_scholar_concat {e t : List Char}
    (ha : ∀ c ∈ e, c ≠ '&')
    (ht : t = [] ∨ ∃ p ∈ googleParams, startsWithL p t = true) :
    regexExtract ("https://scholar.google.com/scholar_url?url=".data ++ (e ++ t)) =
      unquoteL e := by
  have hfind : findSub ['u', 'r', 'l', '=']
      ("https://scholar.google.com/scholar_url?url=".data) = some 39 := by decide
  have hfind2 := findSub_append_left (e ++ t) hfind
  have hdrop : ("https://scholar.google.com/scholar_url?url=".data ++ (e ++ t)).drop (39 + 4)
      = e ++ t := by
    have h43 : 39 + 4 = ("https://scholar.google.com/scholar_url?url=".data).length := by
      decide
    rw [h43, List.drop_left]
  have hps : ∀ p ∈ googleParams, ∃ pr, p = '&' :: pr := by
    intro p hp
    simp only [googleParams, List.mem_cons, List.not_mem_nil, or_false] at hp
    rcases hp with rfl | rfl | rfl | rfl | rfl | rfl | rfl
    · exact ⟨['c', 't', '='], by decide⟩
    · exact ⟨['s', 'a', '='], by decide⟩
    · exact ⟨['r', 'c', 't', '='], by decide⟩
    · exact ⟨['c', 'd', '='], by decide⟩
    · exact ⟨['u', 's', 'g', '='], by decide⟩
    · exact ⟨['v', 'e', 'd', '='], by decide⟩
    · exact ⟨['q', '='], by decide⟩
  have hinner : googleParams.foldl (endPosStep t) t.length = 0 := by
    rcases ht with rfl | ⟨p, hp, hst⟩
    · simpa using endPosFold_zero ([]) googleParams
    · exact endPosFold_hits_zero t hp (findSub_of_startsWith hst) _
  simp only [regexExtract, hfind2, hdrop]
  rw [List.length_append, endPosFold_shift ha hps, hinner, Nat.add_zero,
    List.take_left]

/-! ## Lemmas about `_extract_alert_info` -/

theorem mem_anchorArticles {l : List Char} {a : GArticle}
    (h : a ∈ anchorArticles l) :
    ∃ raw, a.url = String.mk (extractActualUrlL raw) ∧
      startsWithL "http".data (extractActualUrlL raw) = true ∧
      isExcludedDomainWith (extractActualUrlL raw) EXCLUDE_DOMAINS = false := by
  simp only [anchorArticles, List.mem_filterMap] at h
  rcases h with ⟨m, _, hf⟩
  refine ⟨m.1, ?_⟩
  split at hf
  · rename_i hc1
    rw [Bool.and_eq_true, Bool.not_eq_true'] at hc1
    split at hf
    · injection hf with hf
      subst hf
      exact ⟨rfl, hc1.1, hc1.2⟩
    · cases hf
  · cases hf

theorem mem_fallbackArticles {l : List Char} {a : GArticle}
    (h : a ∈ fallbackArticles l) :
    ∃ raw, a.url = String.mk (extractActualUrlL raw) ∧
      isExcludedDomainWith (extractActualUrlL raw) EXCLUDE_DOMAINS = false := by
  simp only [fallbackArticles, List.mem_filterMap] at h
  rcases h with ⟨u, _, hf⟩
  refine ⟨u, ?_⟩
  split at hf
  · rename_i hc
    rw [Bool.not_eq_true'] at hc
    injection hf with hf
    subst hf
    exact ⟨rfl, hc⟩
  · cases hf

theorem articles_cases (body subject : String) (ty : String) :
    (extractAlertInfo body subject ty).articles = anchorArticles body.data ∨
      (extractAlertInfo body subject ty).articles = fallbackArticles body.data := by
  unfold extractAlertInfo
  simp only
  split
  · split
    · right; rfl
    · left; rfl
  · simp

theorem matchUrlLen_startsWith {s : List Char} {n : Nat}
    (h : matchUrlLen s = some n) :
    startsWithL "http".data (s.take n) = true := by
  have hpre : startsWithL "http".data s = true ∧ 4 ≤ n := by
    unfold matchUrlLen at h
    split at h
    · rename_i h8
      split at h
      · rename_i j hj
        injection h with h
        constructor
        · rw [startsWithL_iff] at h8 ⊢
          exact (startsWithL_iff.mp (by decide :
            startsWithL "http".data ("https://".data) = true)).trans h8
        · omega
      · cases h
    · split at h
      · rename_i h7
        split at h
        · rename_i j hj
          injection h with h
          constructor
          · rw [startsWithL_iff] at h7 ⊢
            exact (startsWithL_iff.mp (by decide :
              startsWithL "http".data ("http://".data) = true)).trans h7
          · omega
        · cases h
      · cases h
  rw [startsWithL_iff]
  exact List.prefix_take_iff.mpr ⟨startsWithL_iff.mp hpre.1, by simpa using hpre.2⟩

theorem urlFindAux_startsWith :
    ∀ (fuel : Nat) (s tok : List Char), tok ∈ urlFindAux fuel s →
      startsWithL "http".data tok = true := by
  intro fuel
  induction fuel with
  | zero =>
    intro s tok h
    cases h
  | succ f ih =>
    intro s tok h
    cases s with
    | nil => cases h
    | cons c t =>
      unfold urlFindAux at h
      cases hm : matchUrlLen (c :: t) with
      | some n =>
        rw [hm] at h
        rcases List.mem_cons.mp h with rfl | h'
        · exact matchUrlLen_startsWith hm
        · exact ih _ _ h'
      | none =>
        rw [hm] at h
        exact ih _ _ h

/-! ## Lemmas about the aggregation loop -/

theorem foldl_append_map {α β : Type} (f : α → β) :
    ∀ (l : List α) (acc : List β),
      l.foldl (fun a x => a ++ [f x]) acc = acc ++ l.map f := by
  intro l
  induction l with
  | nil => intro acc; simp
  | cons x l' ih =>
    intro acc
    simp only [List.foldl_cons, List.map_cons, ih]
    simp

theorem appendResultArticles_acc (acc : List LArticle) (r : ResultEntry)
    (st : String) :
    appendResultArticles acc r st = acc ++ appendResultArticles [] r st := by
  simp only [appendResultArticles, foldl_append_map, List.nil_append]
  split <;> rfl

theorem parse_fold_acc (st : String) :
    ∀ (rs : List ResultEntry) (acc : List LArticle),
      rs.foldl (fun a r => appendResultArticles a r st) acc
        = acc ++ rs.flatMap (fun r => appendResultArticles [] r st) := by
  intro rs
  induction rs with
  | nil => intro acc; simp
  | cons r rs' ih =>
    intro acc
    simp only [List.foldl_cons, List.flatMap_cons]
    rw [appendResultArticles_acc, ih, List.append_assoc]

/-! ## The claims -/

/-- Claim C1: the spec requires `is_excluded_domain`, with the default
exclusion list, to return true on W3C namespace URLs and false on
legitimate article URLs.  The code returns false on the W3C URLs as well:
`EXCLUDE_DOMAINS` is `['google','facebook','twitter','linkedin','youtube']`
and contains no W3C token, so the substring test never fires on
`w3.org` hosts.  The first two conjuncts evaluate the code at the failing
inputs (contradicting the claim and the repo test
`test_xhtml_namespace_url_filtering`); the last two agree with the claim. -/
theorem C1_w3c_urls_not_excluded :
    is_excluded_domain "http://www.w3.org/1999/xhtml" = false ∧
    is_excluded_domain "https://www.w3.org/2000/svg" = false ∧
    is_excluded_domain "https://arxiv.org/abs/2024.12345" = false ∧
    is_excluded_domain "https://nature.com/articles/science-123" = false := by
  decide

/-- Claim C2 (counterexample): on this input the structured `parse_qs`
strategy yields the `url` value `a` while the substring/regex strategy
yields `a&b=c`; `extract_actual_url` returns the substring value, so the
claimed precedence ("structured wins, substring only as fallback") is
false on the code. -/
theorem C2_counterexample :
    (match urlparseQuery ("https://www.google.com/url?url=a&b=c".data) with
      | Except.ok q => qsUrlValue (parseQsl q)
      | Except.error _ => none) = some ("a".data) ∧
    regexExtract ("https://www.google.com/url?url=a&b=c".data) = "a&b=c".data ∧
    extract_actual_url "https://www.google.com/url?url=a&b=c" = "a&b=c" ∧
    ("a&b=c" : String) ≠ "a" := by
  exact ⟨by decide, by decide, rfl, by decide⟩

/-- Claim C2 (amended): `extract_actual_url` attempts the substring/regex
extraction first and consults the structured `parse_qs` parsing only when
the regex finds no `url=` parameter; whenever the regex matches (in
particular whenever both strategies would produce a value), the returned
value is the substring-based one. -/
theorem C2_regex_strategy_first (u : List Char)
    (h1 : isRedirectUrl u = true) (h2 : hasUrlRegex u = true) :
    extractActualUrlL u = regexExtract u :=
  extract_of_regex h1 h2

theorem C2_regex_strategy_first_witness :
    extractActualUrlL ("https://www.google.com/url?url=a&b=c".data) =
      regexExtract ("https://www.google.com/url?url=a&b=c".data) :=
  C2_regex_strategy_first _ (by decide) (by decide)

set_option maxRecDepth 16384 in
/-- Claim C3 (counterexample): a sibling parameter (`&hl=en`) that is not
one of Google's seven tracking parameters is not stripped, so the
returned value is not the decoded destination. -/
theorem C3_counterexample :
    extract_actual_url
        "https://scholar.google.com/scholar_url?url=https%3A%2F%2Farxiv.org%2Fabs%2F2312.12345&hl=en" =
      "https://arxiv.org/abs/2312.12345&hl=en" ∧
    ("https://arxiv.org/abs/2312.12345&hl=en" : String) ≠
      "https://arxiv.org/abs/2312.12345" := by
  exact ⟨rfl, by decide⟩

/-- Claim C3 (amended): for every redirect URL of the scholarly wrapper
whose destination is embedded as a percent-encoded (hence `&`-free,
nonempty) value of the `url=` query parameter, `extract_actual_url`
returns the fully percent-decoded destination, provided the part
following the value is empty or starts with one of Google's seven
tracking parameters (`&ct=`, `&sa=`, `&rct=`, `&cd=`, `&usg=`, `&ved=`,
`&q=`); any further siblings after that point are stripped along with
it. -/
theorem C3_decoded_destination (e t : List Char) (he : e ≠ []) (ha : '&' ∉ e)
    (ht : t = [] ∨ ∃ p ∈ googleParams, startsWithL p t = true) :
    extractActualUrlL
        ("https://scholar.google.com/scholar_url?url=".data ++ e ++ t) =
      unquoteL e := by
  have ha' : ∀ c ∈ e, c ≠ '&' := fun c hc hq => ha (hq ▸ hc)
  obtain ⟨e0, e', rfl⟩ : ∃ e0 e', e = e0 :: e' := by
    cases e with
    | nil => exact absurd rfl he
    | cons a b => exact ⟨a, b, rfl⟩
  rw [List.append_assoc]
  have hW : "https://scholar.google.com/scholar_url?url=".data =
      "https://scholar.google.com/scholar_url".data ++ ['?', 'u', 'r', 'l', '='] := by
    decide
  have h0 : e0 ≠ '&' := ha' e0 (by simp)
  have hx : hasUrlRegex (['?', 'u', 'r', 'l', '='] ++ ((e0 :: e') ++ t)) = true := by
    simp [hasUrlRegex, urlRegexTail, h0]
  have hreg : hasUrlRegex
      ("https://scholar.google.com/scholar_url?url=".data ++ ((e0 :: e') ++ t)) = true := by
    rw [hW, List.append_assoc]
    exact hasUrlRegex_append_right _ hx
  have hred : isRedirectUrl
      ("https://scholar.google.com/scholar_url?url=".data ++ ((e0 :: e') ++ t)) = true := by
    have h1 : containsSub ("https://scholar.google.com/scholar_url?url=".data)
        ("scholar.google".data) = true := by decide
    have h2 := containsSub_append_left ((e0 :: e') ++ t) h1
    unfold isRedirectUrl
    rw [h2]
    simp
  rw [extract_of_regex hred hreg]
  exact regexExtract_scholar_concat ha' ht

theorem C3_decoded_destination_witness :
    extractActualUrlL ("https://scholar.google.com/scholar_url?url=".data ++
        "https%3A%2F%2Farxiv.org%2Fabs%2F2312.12345".data ++ "&ct=x&hl=en".data) =
      unquoteL ("https%3A%2F%2Farxiv.org%2Fabs%2F2312.12345".data) ∧
    unquoteL ("https%3A%2F%2Farxiv.org%2Fabs%2F2312.12345".data) =
      "https://arxiv.org/abs/2312.12345".data :=
  ⟨C3_decoded_destination _ _ (by decide) (by decide)
      (Or.inr ⟨"&ct=".data, by decide, by decide⟩),
   by decide⟩

/-- Claim C4 (counterexample): resolution is not idempotent on every
string: a wrapper whose extracted destination is itself a recognized
redirect URL resolves again on the second application. -/
theorem C4_counterexample :
    extract_actual_url (extract_actual_url
        "https://www.google.com/url?url=https://scholar.google.com/scholar_url?url=X") ≠
      extract_actual_url
        "https://www.google.com/url?url=https://scholar.google.com/scholar_url?url=X" := by
  decide

/-- Claim C4 (amended): resolution is idempotent on every input whose
resolved output is not itself recognized as a redirect URL (does not
contain `google.com/url` or `scholar.google`); in particular on every
non-redirect input and on every redirect whose destination is an ordinary
article URL. -/
theorem C4_idempotent_on_resolved (u : List Char)
    (h : isRedirectUrl (extractActualUrlL u) = false) :
    extractActualUrlL (extractActualUrlL u) = extractActualUrlL u :=
  extract_not_redirect h

theorem C4_idempotent_on_resolved_witness :
    extractActualUrlL (extractActualUrlL
        ("https://scholar.google.com/scholar_url?url=https%3A%2F%2Farxiv.org%2Fabs%2F2312.12345".data)) =
      extractActualUrlL
        ("https://scholar.google.com/scholar_url?url=https%3A%2F%2Farxiv.org%2Fabs%2F2312.12345".data) :=
  C4_idempotent_on_resolved _ (by decide)

/-- Claim C5: a non-matching input is returned unchanged (first
conjunct); empty input yields empty output (second); a non-HTTP scheme
not matching a redirect host is returned unchanged (third); and a
redirect-host URL on which neither extraction strategy finds a `url`
parameter is returned unchanged (fourth, covering also the parse-failure
case, where the `except` clause returns the input). -/
theorem C5_unmatched_returned_unchanged :
    (∀ u : List Char, isRedirectUrl u = false → extractActualUrlL u = u) ∧
    extract_actual_url "" = "" ∧
    extract_actual_url "ftp://files.example.org/data.csv" =
      "ftp://files.example.org/data.csv" ∧
    (∀ u : List Char, hasUrlRegex u = false →
      (∀ q, urlparseQuery u = Except.ok q → qsUrlValue (parseQsl q) = none) →
      extractActualUrlL u = u) :=
  ⟨fun _ h => extract_not_redirect h, by decide, by decide,
   fun _ h2 h3 => extract_no_strategies h2 h3⟩

theorem C5_unmatched_returned_unchanged_witness :
    extractActualUrlL ("https://example.com/article".data) =
      "https://example.com/article".data ∧
    extractActualUrlL ("https://scholar.google.com/scholar?q=machine+learning".data) =
      "https://scholar.google.com/scholar?q=machine+learning".data := by
  constructor
  · exact C5_unmatched_returned_unchanged.1 _ (by decide)
  · refine C5_unmatched_returned_unchanged.2.2.2 _ (by decide) ?_
    intro q hq
    have e : urlparseQuery
        ("https://scholar.google.com/scholar?q=machine+learning".data) =
        Except.ok ("q=machine+learning".data) := rfl
    rw [e] at hq
    injection hq with hq
    subst hq
    decide

/-- Claim C6: the body of the `try` block is modelled as an
exception-aware computation (`Except`); the embedded operations are total
except for `urlparse`, which raises `ValueError` on an unbalanced IPv6
bracket in the network location — exactly the exceptions the `except`
clause catches.  On any such parse failure the function returns the
original input unchanged, and being a total Lean function it terminates
on every input. -/
theorem C6_parse_failure_returns_input (u : List Char) (e : Unit)
    (h : extractBodyE u = Except.error e) :
    extractActualUrlL u = u :=
  extract_of_error h

theorem C6_parse_failure_returns_input_witness :
    extractActualUrlL ("https://scholar.google[x?q=1".data) =
      "https://scholar.google[x?q=1".data :=
  C6_parse_failure_returns_input _ () rfl

/-- Claim C7: every article produced by `_extract_alert_info` — on either
extraction path, for every body, subject and channel — carries a URL that
is the output of `extract_actual_url` on some raw URL found in the body,
and that resolved URL was found non-excluded by `is_excluded_domain`; the
filtering decision is taken on the resolved URL, never the raw one. -/
theorem C7_articles_resolved_and_not_excluded (body subject ty : String)
    (a : GArticle) (h : a ∈ (extractAlertInfo body subject ty).articles) :
    ∃ raw, a.url = String.mk (extractActualUrlL raw) ∧
      isExcludedDomainWith (extractActualUrlL raw) EXCLUDE_DOMAINS = false ∧
      is_excluded_domain a.url = false := by
  rcases articles_cases body subject ty with hc | hc
  · rw [hc] at h
    rcases mem_anchorArticles h with ⟨raw, h1, _, h3⟩
    refine ⟨raw, h1, h3, ?_⟩
    rw [h1]
    exact h3
  · rw [hc] at h
    rcases mem_fallbackArticles h with ⟨raw, h1, h3⟩
    refine ⟨raw, h1, h3, ?_⟩
    rw [h1]
    exact h3

theorem C7_articles_resolved_and_not_excluded_witness :
    ∃ raw, (GArticle.mk "" "https://example.com/a" "").url =
        String.mk (extractActualUrlL raw) ∧
      isExcludedDomainWith (extractActualUrlL raw) EXCLUDE_DOMAINS = false ∧
      is_excluded_domain (GArticle.mk "" "https://example.com/a" "").url = false :=
  C7_articles_resolved_and_not_excluded
    "Read https://example.com/a and https://facebook.com/b today" "s" "google"
    ⟨"", "https://example.com/a", ""⟩ (by decide)

/-- Claim C8 (counterexample): a body that does contain anchor-tag markup
(`<a href=` occurs) but whose every anchor is filtered out still runs the
bare-URL fallback — the extraction output equals the fallback scan's
output and is nonempty — so the fallback does not run exactly when the
body contains no anchor markup at all. -/
theorem C8_counterexample :
    containsSub
        ("<a href=\"https://www.facebook.com/s\">t</a> see https://example.com/page now".data)
        ("<a href=".data) = true ∧
    anchorArticles
        ("<a href=\"https://www.facebook.com/s\">t</a> see https://example.com/page now".data)
      = [] ∧
    (extractAlertInfo
        "<a href=\"https://www.facebook.com/s\">t</a> see https://example.com/page now"
        "s" "google").articles =
      fallbackArticles
        ("<a href=\"https://www.facebook.com/s\">t</a> see https://example.com/page now".data) ∧
    (extractAlertInfo
        "<a href=\"https://www.facebook.com/s\">t</a> see https://example.com/page now"
        "s" "google").articles = [⟨"", "https://example.com/page", ""⟩] := by
  exact ⟨by decide, by decide, by decide, by decide⟩

/-- Claim C8 (amended): the bare-URL fallback runs exactly when the
anchor-tag phase contributes no articles — either because the body
contains no `<a href=` markup or because every anchor was filtered out;
and for a body with no anchors containing two bare HTTP(S) URLs of which
exactly one is excluded after resolution, extraction returns exactly one
article: the non-excluded one, with empty title and the resolved URL. -/
theorem C8_fallback_iff_anchor_empty :
    (∀ body subject ty : String,
      (if containsSub body.data ("<a href=".data) then anchorArticles body.data
        else []) = [] →
      (extractAlertInfo body subject ty).articles = fallbackArticles body.data) ∧
    (∀ body subject ty : String,
      containsSub body.data ("<a href=".data) = true →
      anchorArticles body.data ≠ [] →
      (extractAlertInfo body subject ty).articles = anchorArticles body.data) ∧
    (extractAlertInfo "Read https://example.com/a and https://facebook.com/b today"
        "s" "google").articles = [⟨"", "https://example.com/a", ""⟩] ∧
    containsSub ("Read https://example.com/a and https://facebook.com/b today".data)
      ("<a href=".data) = false ∧
    is_excluded_domain "https://facebook.com/b" = true ∧
    is_excluded_domain "https://example.com/a" = false := by
  refine ⟨?_, ?_, by decide, by decide, by decide, by decide⟩
  · intro body subject ty h
    simp only [extractAlertInfo]
    rw [h]
    simp
  · intro body subject ty h1 h2
    have h3 : (anchorArticles body.data).isEmpty = false := by
      cases hl : anchorArticles body.data
      · exact absurd hl h2
      · rfl
    simp only [extractAlertInfo, h1, if_true, h3]
    simp

theorem C8_fallback_iff_anchor_empty_witness :
    (extractAlertInfo
        "<a href=\"https://twitter.com/i\">t</a> plus https://example.org/x here"
        "s" "google").articles =
      fallbackArticles
        ("<a href=\"https://twitter.com/i\">t</a> plus https://example.org/x here".data) :=
  C8_fallback_iff_anchor_empty.1 _ "s" "google" (by decide)

/-- Claim C9 (counterexample): the bare-URL fallback path stores the
resolved URL without any scheme check, and the resolution of this bare
redirect-looking token is the empty string — the extractor emits an
article whose URL is empty (hence has no scheme). -/
theorem C9_counterexample :
    (extractAlertInfo "see https://scholar.google.com/aurl=&ct=x&url=b end"
        "s" "scholar").articles = [⟨"", "", ""⟩] := by
  decide

/-- Claim C9 (amended): every article produced by the anchor-tag
extraction path has a non-empty URL starting with `http`; on the bare-URL
fallback path only the raw matched token is guaranteed to start with
`http` — the stored resolved URL may lack a scheme or be empty. -/
theorem C9_anchor_path_scheme :
    (∀ (body : List Char) (a : GArticle), a ∈ anchorArticles body →
      startsWithL "http".data a.url.data = true ∧ a.url ≠ "") ∧
    (∀ (body tok : List Char), tok ∈ urlFindall body →
      startsWithL "http".data tok = true) := by
  constructor
  · intro body a h
    rcases mem_anchorArticles h with ⟨raw, h1, h2, _⟩
    constructor
    · rw [h1]
      exact h2
    · rw [h1]
      intro hcon
      have hd : extractActualUrlL raw = [] := congrArg String.data hcon
      rw [hd] at h2
      exact absurd h2 (by decide)
  · intro body tok h
    exact urlFindAux_startsWith body.length body tok h

theorem C9_anchor_path_scheme_witness :
    startsWithL "http".data ("https://a.b/c".data) = true :=
  C9_anchor_path_scheme.2 ("x https://a.b/c. y".data) _ (by decide)

/-- Claim C10: for every analysis-result entry, the aggregation loop of
`parse_report_json` emits, when the decision carries a non-empty
per-article annotation list, one article per annotation built from the
annotation's title, url, summary, is_relevant and relevance_reasoning;
otherwise (legacy shape) one article per raw article attached to the
alert with is_relevant and reasoning copied from the alert-level
decision. -/
theorem C10_aggregation_shape (results : List ResultEntry) (st : String) :
    parseReportResults results st = results.flatMap (fun r =>
      let alert := r.alert.getD ⟨none, none, none⟩
      let decision := r.decision.getD ⟨none, none, none⟩
      let anns := decision.articles.getD []
      if anns ≠ [] then
        anns.map (fun ad =>
          (⟨ad.title.getD "No Title", ad.url.getD "", ad.summary.getD "",
            alert.date.getD "Unknown Date", st, alert.alert_query.getD "Unknown Query",
            ad.is_relevant.getD false, ad.relevance_reasoning.getD ""⟩ : LArticle))
      else
        (alert.articles.getD []).map (fun ad =>
          (⟨ad.title.getD "No Title", ad.url.getD "", ad.snippet.getD "",
            alert.date.getD "Unknown Date", st, alert.alert_query.getD "Unknown Query",
            decision.is_relevant.getD false, decision.reasoning.getD ""⟩ : LArticle))) := by
  rw [parseReportResults, parse_fold_acc, List.nil_append]
  refine congrArg _ (funext fun r => ?_)
  simp only [appendResultArticles, foldl_append_map, List.nil_append]
  by_cases hc : (r.decision.getD ⟨none, none, none⟩).articles.getD [] = []
  · rw [if_neg (by simp [hc]), if_neg (by simp [hc])]
  · rw [if_pos (by simp [hc]), if_pos hc]

end GA
